import Mathlib

/-!
Verification development for the media_organizer repository.

Strings from the Python sources are modeled as lists of Unicode
codepoints (`List Nat`), restricted to the fragment consisting of ASCII
plus U+0130 (LATIN CAPITAL LETTER I WITH DOT ABOVE) and U+0307 (COMBINING
DOT ABOVE) — the pair on which the normalizer's idempotence fails, since
Python's str.lower expands U+0130 to "i" + U+0307 and the punctuation
filter then removes the combining dot. On this fragment the character
tables for `\w`, `\s` and str.lower below are exact, and the NFC step is
the identity on every string the pipeline feeds it (see `nfc`).
`difflib.SequenceMatcher(None, a, b).ratio()` is kept as an explicit
function parameter `sim : List Nat → List Nat → ℚ` of the matching
definitions: none of the verified properties depend on its internals,
only on threshold comparisons against its results.
-/

namespace MediaOrganizer

/-- Codepoint list of a string literal. -/
def codes (s : String) : List Nat :=
  s.data.map Char.toNat

/-- Python whitespace (regex class \s and str.strip) on the ASCII fragment:
space, tab, newline, carriage return, vertical tab, form feed. -/
def isSpace (c : Nat) : Bool :=
  decide (c = 32 ∨ c = 9 ∨ c = 10 ∨ c = 13 ∨ c = 11 ∨ c = 12)

/-- Python word characters (regex class \w: Unicode alphanumerics plus
underscore) on the modeled fragment: ASCII digits, letters and underscore,
plus U+0130 (304, an uppercase letter, hence alphabetic). U+0307 (775), a
combining mark that is not alphabetic, is deliberately not a word
character — the regex removes it. -/
def isWord (c : Nat) : Bool :=
  decide ((48 ≤ c ∧ c ≤ 57) ∨ (65 ≤ c ∧ c ≤ 90) ∨ (97 ≤ c ∧ c ≤ 122) ∨
    c = 95 ∨ c = 304)

/-- Characters kept by re.sub(r"[^\w\s]", "", s) in normalize:
word characters and whitespace survive, all punctuation is removed. -/
def keepChar (c : Nat) : Bool :=
  isWord c || isSpace c

/-- The single-codepoint case of Python str.lower: ASCII A-Z shift; every
other fragment character except U+0130 (handled by pyLowerChar) is its own
lowercase. -/
def pyLower (c : Nat) : Nat :=
  if 65 ≤ c ∧ c ≤ 90 then c + 32 else c

/-- Python str.lower per character, with multi-codepoint expansion:
U+0130 lowercases to "i" + U+0307 ([105, 775], per SpecialCasing.txt);
every other fragment character lowercases to a single codepoint. The only
context-dependent lowercase rule (final sigma) involves no fragment
character, so the per-character map is exact here. -/
def pyLowerChar (c : Nat) : List Nat :=
  if c = 304 then [105, 775] else [pyLower c]

/-- Python str.lower on a whole string. -/
def pyLowerStr (s : List Nat) : List Nat :=
  s.flatMap pyLowerChar

/-- unicodedata.normalize("NFC", s), as applied inside normalize. NFC is
the identity on every string free of combining marks whose characters are
NFC-stable: ASCII is NFC-stable, and U+0130 is a precomposed character
that NFC leaves in place. The only combining mark of the fragment, U+0307,
is neither a word character nor whitespace, so the punctuation filter that
precedes this step in normalize always removes it — the NFC step never
receives a string on which canonical composition could act, and the
identity is exact on all of its inputs. -/
def nfc (s : List Nat) : List Nat := s

/-- Leading-whitespace strip (left half of Python str.strip). -/
def lstrip (s : List Nat) : List Nat := s.dropWhile isSpace

/-- Trailing-whitespace strip (right half of Python str.strip). -/
def rstrip (s : List Nat) : List Nat := (s.reverse.dropWhile isSpace).reverse

/-- Python str.strip : whitespace removed from both ends, inner
whitespace preserved. -/
def pyStrip (s : List Nat) : List Nat := rstrip (lstrip s)

/-- The normalize function of series_folder_crawler.py: empty input gives
the empty string; otherwise all punctuation is removed
(re.sub(r"[^\w\s]", "", s)), NFC normalization is applied, the ends are
stripped, and the text is lowercased. -/
def normalize (s : List Nat) : List Nat :=
  if s.isEmpty then []
  else pyLowerStr (pyStrip (nfc (s.filter keepChar)))

lemma isSpace_pyLower (c : Nat) : isSpace (pyLower c) = isSpace c := by
  by_cases hc : 65 ≤ c ∧ c ≤ 90
  · simp only [pyLower, if_pos hc, isSpace]
    rw [decide_eq_decide]
    omega
  · simp only [pyLower, if_neg hc]

lemma keepChar_pyLower {c : Nat} (h : keepChar c = true) :
    keepChar (pyLower c) = true := by
  by_cases hc : 65 ≤ c ∧ c ≤ 90
  · have hw : isWord (pyLower c) = true := by
      simp only [pyLower, if_pos hc, isWord, decide_eq_true_eq]
      omega
    simp [keepChar, hw]
  · simpa only [pyLower, if_neg hc] using h

lemma pyLower_pyLower (c : Nat) : pyLower (pyLower c) = pyLower c := by
  by_cases hc : 65 ≤ c ∧ c ≤ 90
  · simp only [pyLower, if_pos hc]
    rw [if_neg (by omega)]
  · simp only [pyLower, if_neg hc]

lemma lstrip_shape (s : List Nat) :
    lstrip s = [] ∨ ∃ c t, lstrip s = c :: t ∧ isSpace c = false := by
  induction s with
  | nil => exact Or.inl rfl
  | cons a s ih =>
    by_cases ha : isSpace a
    · simpa [lstrip, List.dropWhile_cons, ha] using ih
    · right
      exact ⟨a, s, by simp [lstrip, List.dropWhile_cons, ha], by simpa using ha⟩

lemma lstrip_eq_self {s : List Nat}
    (h : s = [] ∨ ∃ c t, s = c :: t ∧ isSpace c = false) : lstrip s = s := by
  rcases h with rfl | ⟨c, t, rfl, hc⟩
  · rfl
  · simp [lstrip, List.dropWhile_cons, hc]

lemma lstrip_idem (s : List Nat) : lstrip (lstrip s) = lstrip s :=
  lstrip_eq_self (lstrip_shape s)

lemma rstrip_idem (s : List Nat) : rstrip (rstrip s) = rstrip s := by
  unfold rstrip
  rw [List.reverse_reverse]
  rw [show (s.reverse.dropWhile isSpace).dropWhile isSpace
        = s.reverse.dropWhile isSpace from lstrip_idem s.reverse]

lemma rstrip_append (s : List Nat) : ∃ t, s = rstrip s ++ t := by
  obtain ⟨u, hu⟩ := List.dropWhile_suffix (l := s.reverse) isSpace
  refine ⟨u.reverse, ?_⟩
  rw [show rstrip s = (s.reverse.dropWhile isSpace).reverse from rfl,
    ← List.reverse_append, hu, List.reverse_reverse]

lemma lstrip_rstrip {s : List Nat} (h : lstrip s = s) :
    lstrip (rstrip s) = rstrip s := by
  have hs := lstrip_shape s
  rw [h] at hs
  obtain ⟨u, hu⟩ := rstrip_append s
  rcases hrs : rstrip s with _ | ⟨c, t⟩
  · rfl
  · apply lstrip_eq_self
    right
    refine ⟨c, t, rfl, ?_⟩
    rw [hrs] at hu
    rcases hs with hnil | ⟨c2, t2, hct, hc2⟩
    · rw [hnil] at hu
      simp at hu
    · rw [hct] at hu
      have hc2c : c2 = c := by
        have := congrArg List.head? hu
        simpa using this

      rw [← hc2c]
      exact hc2

lemma pyStrip_idem (s : List Nat) : pyStrip (pyStrip s) = pyStrip s := by
  unfold pyStrip
  rw [lstrip_rstrip (lstrip_idem s), rstrip_idem]

lemma mem_of_mem_lstrip {a : Nat} {s : List Nat} (h : a ∈ lstrip s) : a ∈ s :=
  (List.dropWhile_sublist isSpace).subset h

lemma mem_of_mem_rstrip {a : Nat} {s : List Nat} (h : a ∈ rstrip s) : a ∈ s := by
  unfold rstrip at h
  rw [List.mem_reverse] at h
  have := (List.dropWhile_sublist (l := s.reverse) isSpace).subset h
  rwa [List.mem_reverse] at this

lemma mem_of_mem_pyStrip {a : Nat} {s : List Nat} (h : a ∈ pyStrip s) : a ∈ s :=
  mem_of_mem_lstrip (mem_of_mem_rstrip h)

lemma lstrip_map_pyLower (s : List Nat) :
    lstrip (s.map pyLower) = (lstrip s).map pyLower := by
  unfold lstrip
  rw [List.dropWhile_map,
    show isSpace ∘ pyLower = isSpace from funext isSpace_pyLower]

lemma rstrip_map_pyLower (s : List Nat) :
    rstrip (s.map pyLower) = (rstrip s).map pyLower := by
  unfold rstrip
  rw [← List.map_reverse, List.dropWhile_map,
    show isSpace ∘ pyLower = isSpace from funext isSpace_pyLower,
    List.map_reverse]

lemma pyStrip_map_pyLower (s : List Nat) :
    pyStrip (s.map pyLower) = (pyStrip s).map pyLower := by
  unfold pyStrip
  rw [lstrip_map_pyLower, rstrip_map_pyLower]

lemma pyLowerChar_of_ne {c : Nat} (h : c ≠ 304) :
    pyLowerChar c = [pyLower c] := by
  simp [pyLowerChar, h]

lemma pyLowerStr_eq_map {s : List Nat} (h : ∀ c ∈ s, c ≠ 304) :
    pyLowerStr s = s.map pyLower := by
  induction s with
  | nil => rfl
  | cons a t ih =>
    rw [pyLowerStr, List.flatMap_cons,
      pyLowerChar_of_ne (h a (List.mem_cons_self a t)),
      show t.flatMap pyLowerChar = pyLowerStr t from rfl,
      ih (fun c hc => h c (List.mem_cons_of_mem a hc))]
    rfl

lemma pyLower_lt_128 {c : Nat} (h : c < 128) : pyLower c < 128 := by
  unfold pyLower
  split <;> omega

/-- C8, counterexample. Text normalization is not idempotent: on the
dotted capital I (U+0130, codepoint 304) the first application keeps the
letter through the punctuation filter (it is alphabetic, hence a word
character) and lowercases it to "i" + combining dot above ([105, 775]),
while the second application's punctuation filter removes the combining
dot (neither a word character nor whitespace), leaving "i" ([105]). -/
theorem C8_counterexample :
    normalize (normalize [304]) ≠ normalize [304] := by
  decide

/-- C8, amended. Text normalization is idempotent on ASCII strings: for
every input whose characters are all ASCII, normalize (normalize s) =
normalize s, an already-normalized ASCII string being returned unchanged.
(On the full fragment idempotence fails at U+0130; see the
counterexample.) -/
theorem C8_amended_ascii_idempotent (s : List Nat) (h : ∀ c ∈ s, c < 128) :
    normalize (normalize s) = normalize s := by
  by_cases hs : s.isEmpty = true
  · simp [normalize, hs]
  · have hP : ∀ c ∈ pyStrip (s.filter keepChar), c < 128 := by
      intro c hc
      exact h c (List.mem_filter.mp (mem_of_mem_pyStrip hc)).1
    have hrdef : normalize s = (pyStrip (s.filter keepChar)).map pyLower := by
      have hu : normalize s = pyLowerStr (pyStrip (s.filter keepChar)) := by
        simp [normalize, hs, nfc]
      rw [hu]
      exact pyLowerStr_eq_map (fun c hc => by have := hP c hc; omega)
    rw [hrdef]
    have hr128 : ∀ c ∈ (pyStrip (s.filter keepChar)).map pyLower, c < 128 := by
      intro c hc
      obtain ⟨b, hb, rfl⟩ := List.mem_map.mp hc
      exact pyLower_lt_128 (hP b hb)
    by_cases hre : ((pyStrip (s.filter keepChar)).map pyLower).isEmpty = true
    · rw [List.isEmpty_iff] at hre
      rw [hre]
      rfl
    · have h1 : ((pyStrip (s.filter keepChar)).map pyLower).filter keepChar
          = (pyStrip (s.filter keepChar)).map pyLower := by
        apply List.filter_eq_self.mpr
        intro a ha
        obtain ⟨b, hb, rfl⟩ := List.mem_map.mp ha
        exact keepChar_pyLower (List.of_mem_filter (mem_of_mem_pyStrip hb))
      have h2 : pyStrip ((pyStrip (s.filter keepChar)).map pyLower)
          = (pyStrip (s.filter keepChar)).map pyLower := by
        rw [pyStrip_map_pyLower, pyStrip_idem]
      have h3 : ((pyStrip (s.filter keepChar)).map pyLower).map pyLower
          = (pyStrip (s.filter keepChar)).map pyLower := by
        rw [List.map_map]
        congr 1
        funext c
        simp only [Function.comp_apply]
        exact pyLower_pyLower c
      have h4 : pyLowerStr ((pyStrip (s.filter keepChar)).map pyLower)
          = ((pyStrip (s.filter keepChar)).map pyLower).map pyLower :=
        pyLowerStr_eq_map (fun c hc => by have := hr128 c hc; omega)
      simp only [normalize, hre, if_false, Bool.false_eq_true, nfc]
      rw [h1, h2, h4, h3]

/-- C8, amended, witness at a concrete ASCII string. -/
theorem C8_amended_witness :
    normalize (normalize (codes "The Pilot!"))
      = normalize (codes "The Pilot!") :=
  C8_amended_ascii_idempotent (codes "The Pilot!") (by decide)

/-! Generic helpers: a fold-invariant principle and the stable insertion
sort modeling Python's stable list.sort with a key function. -/

lemma foldl_inv {α β : Type} {P : β → Prop} {f : β → α → β}
    (hf : ∀ b a, P b → P (f b a)) :
    ∀ (l : List α) (b : β), P b → P (l.foldl f b) := by
  intro l
  induction l with
  | nil => intro b hb; exact hb
  | cons a l ih => intro b hb; exact ih _ (hf _ _ hb)

/-- Stable insertion of one element: the new element goes after all
existing elements whose key is less than or equal to its key, as Python's
stable sort orders equal keys by original position. -/
def insertByKey {α : Type} (key : α → Int) (a : α) : List α → List α
  | [] => [a]
  | b :: bs => if key b ≤ key a then b :: insertByKey key a bs else a :: b :: bs

/-- Python list.sort(key=...) modeled as a stable insertion sort. -/
def sortByKey {α : Type} (key : α → Int) (l : List α) : List α :=
  l.foldl (fun acc a => insertByKey key a acc) []

lemma mem_insertByKey {α : Type} (key : α → Int) (a y : α) :
    ∀ l : List α, y ∈ insertByKey key a l ↔ y = a ∨ y ∈ l := by
  intro l
  induction l with
  | nil => simp [insertByKey]
  | cons b bs ih =>
    by_cases hb : key b ≤ key a
    · simp only [insertByKey, if_pos hb, List.mem_cons, ih]
      tauto
    · simp only [insertByKey, if_neg hb, List.mem_cons]

lemma insertByKey_pairwise {α : Type} (key : α → Int) (a : α) :
    ∀ {l : List α}, l.Pairwise (fun x y => key x ≤ key y) →
      (insertByKey key a l).Pairwise (fun x y => key x ≤ key y) := by
  intro l
  induction l with
  | nil => intro _; simp [insertByKey]
  | cons b bs ih =>
    intro h
    rw [List.pairwise_cons] at h
    obtain ⟨hb, hbs⟩ := h
    by_cases hba : key b ≤ key a
    · simp only [insertByKey, if_pos hba]
      rw [List.pairwise_cons]
      refine ⟨?_, ih hbs⟩
      intro y hy
      rcases (mem_insertByKey key a y bs).mp hy with rfl | hy2
      · exact hba
      · exact hb y hy2
    · simp only [insertByKey, if_neg hba]
      rw [List.pairwise_cons]
      have hab : key a ≤ key b := by omega
      refine ⟨?_, List.pairwise_cons.mpr ⟨hb, hbs⟩⟩
      intro y hy
      rcases List.mem_cons.mp hy with rfl | hy2
      · exact hab
      · exact le_trans hab (hb y hy2)

lemma sortByKey_pairwise {α : Type} (key : α → Int) (l : List α) :
    (sortByKey key l).Pairwise (fun x y => key x ≤ key y) := by
  unfold sortByKey
  exact foldl_inv (fun b a hb => insertByKey_pairwise key a hb) l [] (by simp)

/-! The Provider Metadata Merger: fetch_metadata of Season_Episode_builder.py.
A provider's already-parsed output is its "seasons" mapping, modeled as the
list of (season number, episode list) items in dict insertion order. The
merger reads nothing of an episode entry except its episode_number sort key,
so an entry is modeled as that key plus an opaque payload tag distinguishing
the source entries. -/

/-- One provider episode entry: the episode_number used as the sort key and
an opaque payload standing for the rest of the JSON object. -/
structure PEp where
  episode_number : Int
  payload : Nat
deriving DecidableEq, Repr

/-- Mutating the first season record with the given number, extending its
episode list (the next(...) lookup in fetch_metadata). -/
def extendFirstSeason (sn : Int) (eps : List PEp) :
    List (Int × List PEp) → List (Int × List PEp)
  | [] => []
  | s :: rest =>
    if s.1 = sn then (s.1, s.2 ++ eps) :: rest
    else s :: extendFirstSeason sn eps rest

/-- One season item of one provider being merged: if a season with this
number exists, its episodes list is extended; otherwise the season is
appended. -/
def addProviderSeason (acc : List (Int × List PEp)) (sn : Int)
    (eps : List PEp) : List (Int × List PEp) :=
  if acc.any (fun s => decide (s.1 = sn)) then extendFirstSeason sn eps acc
  else acc ++ [(sn, eps)]

/-- fetch_metadata of Season_Episode_builder.py, restricted to providers
whose data was read successfully (a failing provider contributes nothing and
is skipped by the except-branch). For each provider, each season's episode
entries are merged into the accumulating record; afterwards seasons are
sorted by season number and each season's episodes are sorted (stably) by
episode number. -/
def fetch_metadata (providers : List (List (Int × List PEp))) :
    List (Int × List PEp) :=
  let merged := providers.foldl
    (fun acc pd => pd.foldl (fun a se => addProviderSeason a se.1 se.2) acc) []
  (sortByKey (fun s => s.1) merged).map
    (fun s => (s.1, sortByKey (fun e => e.episode_number) s.2))

/-- All (season, episode) pairs of a merged record, in order. -/
def seasonEpisodePairs (out : List (Int × List PEp)) : List (Int × Int) :=
  (out.map (fun s => s.2.map (fun e => (s.1, e.episode_number)))).flatten

/-- Two providers that both contribute season 1 episode 1. -/
def demoProvA : List (Int × List PEp) := [(1, [⟨1, 0⟩])]

/-- Second provider with the same (season, episode) pair as demoProvA. -/
def demoProvB : List (Int × List PEp) := [(1, [⟨1, 1⟩])]

/-- C2, counterexample. On two providers that both supply season 1
episode 1, the merged record repeats the (1, 1) pair: the pairs are not
unique and the episodes of season 1 are not strictly ascending. -/
theorem C2_counterexample :
    ¬ ((seasonEpisodePairs (fetch_metadata [demoProvA, demoProvB])).Nodup ∧
       ∀ se ∈ fetch_metadata [demoProvA, demoProvB],
         se.2.Pairwise (fun a b => a.episode_number < b.episode_number)) := by
  decide

/-- C2, amended. A later provider entry for an already-present episode
number is appended to the season's episode list, never merged or dropped,
so (season, episode) pairs can repeat; after the final sort the episodes
within each season are ascending (non-strictly) by episode number. -/
theorem C2_amended_episodes_sorted (providers : List (List (Int × List PEp)))
    (sn : Int) (eps : List PEp) (h : (sn, eps) ∈ fetch_metadata providers) :
    eps.Pairwise (fun a b => a.episode_number ≤ b.episode_number) := by
  unfold fetch_metadata at h
  obtain ⟨s, _, heq⟩ := List.mem_map.mp h
  have h2 : sortByKey (fun e => e.episode_number) s.2 = eps :=
    congrArg Prod.snd heq
  rw [← h2]
  exact sortByKey_pairwise _ _

/-- C2, amended, witness at the two concrete providers. -/
theorem C2_amended_witness :
    ([⟨1, 0⟩, ⟨1, 1⟩] : List PEp).Pairwise
      (fun a b => a.episode_number ≤ b.episode_number) :=
  C2_amended_episodes_sorted [demoProvA, demoProvB] 1 [⟨1, 0⟩, ⟨1, 1⟩]
    (by decide)

/-! series_folder_crawler.py: text helpers of the matching logic. -/

/-- Python str.split() (no separator): split on whitespace runs, empty
tokens discarded. -/
def pyWords (s : List Nat) : List (List Nat) :=
  (s.splitOnP isSpace).filter (fun w => !w.isEmpty)

/-- Rejoining of a word list with single spaces, as " ".join(words). -/
def joinWords (ws : List (List Nat)) : List Nat :=
  List.intercalate [32] ws

/-- slide_window of series_folder_crawler.py: all contiguous size-word
windows of the text, each rejoined with single spaces. The Nat expression
words.length + 1 - size equals Python's range bound len(words) - size + 1
clamped at zero, matching the empty range for short texts. -/
def slide_window (text : List Nat) (size : Nat) : List (List Nat) :=
  let ws := pyWords text
  (List.range (ws.length + 1 - size)).map (fun i => joinWords ((ws.drop i).take size))

/-- token_overlap of series_folder_crawler.py:
len(set(a.split()) & set(b.split())), the number of distinct words shared
by the two texts. -/
def token_overlap (a b : List Nat) : Nat :=
  ((pyWords a).dedup.filter (fun w => (pyWords b).contains w)).length

/-- Python max(list, default=d): the default only when the list is empty. -/
def pyMaxD (l : List ℚ) (d : ℚ) : ℚ :=
  match l with
  | [] => d
  | x :: xs => xs.foldl max x

/-- A match-pool element as built by build_match_pool: season and episode
numbers, the normalized non-empty titles, the normalized overview texts,
the raw preferred (tvmaze) title, and the air date. -/
structure Candidate where
  season : Int
  episode : Int
  titles : List (List Nat)
  overviews : List (List Nat)
  title : List Nat
  air_date : List Nat
deriving DecidableEq, Repr

/-- Pass 1 body of match_group_to_provider: the normalized subtitle equals
one of the candidate's non-empty titles (the redundant second membership
test of the source collapses into the same check). -/
def pass1Accepts (keySub : List Nat) (m : Candidate) : Bool :=
  (m.titles.filter (fun t => !t.isEmpty)).contains keySub

/-- Pass 2 body: exact title equality, else some title whose similarity
ratio to the subtitle reaches the Pass-2 threshold. -/
def pass2Accepts (sim : List Nat → List Nat → ℚ) (t2 : ℚ)
    (keySub : List Nat) (m : Candidate) : Bool :=
  let ts := m.titles.filter (fun t => !t.isEmpty)
  ts.contains keySub || ts.any (fun t => decide (t2 ≤ sim keySub t))

/-- Pass 3 body: some overview and some 10-word description snippet whose
similarity ratio reaches the Pass-3 threshold. -/
def pass3Accepts (sim : List Nat → List Nat → ℚ) (t3 : ℚ)
    (keyDesc : List Nat) (m : Candidate) : Bool :=
  m.overviews.any (fun o =>
    (slide_window keyDesc 10).any (fun sn => decide (t3 ≤ sim sn o)))

/-- Pass 4 body: some overview whose distinct-shared-word overlap with the
description reaches the Pass-4 threshold, guarded by the maximum
subtitle-to-title similarity ratio being at least 0.60, raised to 0.90 for
a specials-season (season 0) candidate. A guard failure only continues to
the next overview, and the guard does not depend on the overview. -/
def pass4Accepts (sim : List Nat → List Nat → ℚ) (t4 : Nat)
    (keySub keyDesc : List Nat) (m : Candidate) : Bool :=
  m.overviews.any (fun o =>
    decide (t4 ≤ token_overlap keyDesc o) &&
    (decide (mkRat 6 10 ≤ pyMaxD (m.titles.map (fun t => sim keySub t)) 0) &&
     (!decide (m.season = 0) ||
      decide (mkRat 9 10 ≤ pyMaxD (m.titles.map (fun t => sim keySub t)) 0))))

/-- In-order scan of the pool returning the first accepted candidate with
its index (for i, m in enumerate(pool)). -/
def findCandidate (p : Candidate → Bool) (pool : List Candidate) :
    Option (Nat × Candidate) :=
  pool.enum.find? (fun im => p im.2)

/-- match_group_to_provider of series_folder_crawler.py. sim stands for
SequenceMatcher(None, a, b).ratio(); t2, t3, t4 are the configured
PASS2/PASS3/PASS4 thresholds. Pass 3 runs only when the normalized
description has at least 10 words; an unknown pass number (or a short
description in Pass 3) falls through to the final no-match return. -/
def match_group_to_provider (sim : List Nat → List Nat → ℚ) (t2 t3 : ℚ)
    (t4 : Nat) (subtitle desc : List Nat) (pool : List Candidate)
    (passNum : Nat) : Option (Nat × Candidate) :=
  let keySub := normalize subtitle
  let keyDesc := normalize desc
  if passNum = 1 then findCandidate (pass1Accepts keySub) pool
  else if passNum = 2 then findCandidate (pass2Accepts sim t2 keySub) pool
  else if passNum = 3 ∧ 10 ≤ (pyWords keyDesc).length then
    findCandidate (pass3Accepts sim t3 keyDesc) pool
  else if passNum = 4 then findCandidate (pass4Accepts sim t4 keySub keyDesc) pool
  else none

/-! series_folder_crawler.py: association of physical .ts files with the
sidecar .xml basenames (find_related_ts_files), and the candidate pool
builder (build_match_pool). Paths are modeled as the bare filename; the
ROOT_FOLDER prefix and the backslash replacement do not affect any claim. -/

/-- Python s.replace(pat, "") for a non-empty pattern: remove all
non-overlapping occurrences, scanning left to right. -/
def removeAll (pat : List Nat) (s : List Nat) : List Nat :=
  match s with
  | [] => []
  | c :: rest =>
    if _h : pat.length ≠ 0 ∧ pat.isPrefixOf (c :: rest) = true then
      removeAll pat (List.drop pat.length (c :: rest))
    else
      c :: removeAll pat rest
termination_by s.length
decreasing_by
  · simp only [List.length_drop, List.length_cons]
    omega
  · simp only [List.length_cons]
    omega

/-- Python "pat in s": substring containment. -/
def containsSub (pat s : List Nat) : Bool :=
  (List.range (s.length + 1)).any (fun i => pat.isPrefixOf (s.drop i))

/-- Removal of a maximal trailing run of "-0" markers. -/
def dropDash0Run (s : List Nat) : List Nat :=
  if h : (codes "-0").isSuffixOf s = true ∧ 2 ≤ s.length then
    dropDash0Run (s.take (s.length - 2))
  else s
termination_by s.length
decreasing_by
  · simp only [List.length_take]
    omega

/-- re.sub(r"(-0)+(?=\.ts$)", "", s): the lookahead anchors any match to a
run of "-0" groups immediately preceding a terminal ".ts", so the
substitution removes exactly that run and changes nothing else (strings
with a trailing newline, where $ may also match, do not occur here). -/
def reSubBrokenTs (s : List Nat) : List Nat :=
  if (codes ".ts").isSuffixOf s then
    dropDash0Run (s.take (s.length - 3)) ++ codes ".ts"
  else s

/-- One physical media file reference: path (modeled as the filename),
byte size, and the broken flag ("-0" in file). -/
structure FileRec where
  path : List Nat
  size : Nat
  broken : Bool
deriving DecidableEq, Repr

/-- find_related_ts_files of series_folder_crawler.py. The directory
listing is the list of (filename, size) pairs; xml_basenames is the set of
sidecar filenames. For each .ts file, the base is file[:-3] with the
(broken) suffix-strip regex applied — note its lookahead refers to the
".ts" already removed by file[:-3] — and the file joins the group of that
base when base.xml, base-0.xml or base-0-0.xml is a known sidecar. The
result keeps defaultdict(list) grouping as (base, record) pairs in scan
order. -/
def ftfStep (xml_basenames : List (List Nat))
    (acc : List (List Nat × FileRec)) (f : List Nat × Nat) :
    List (List Nat × FileRec) :=
  if (codes ".ts").isSuffixOf f.1 then
    if xml_basenames.contains (reSubBrokenTs (f.1.take (f.1.length - 3)) ++ codes ".xml")
        || xml_basenames.contains (reSubBrokenTs (f.1.take (f.1.length - 3)) ++ codes "-0.xml")
        || xml_basenames.contains (reSubBrokenTs (f.1.take (f.1.length - 3)) ++ codes "-0-0.xml") then
      acc ++ [(reSubBrokenTs (f.1.take (f.1.length - 3)),
               ⟨f.1, f.2, containsSub (codes "-0") f.1⟩)]
    else acc
  else acc

/-- The full directory scan of find_related_ts_files. -/
def find_related_ts_files (files : List (List Nat × Nat))
    (xml_basenames : List (List Nat)) : List (List Nat × FileRec) :=
  files.foldl (ftfStep xml_basenames) []

/-- ts_groups.get(basename, []): the records grouped under one base, in
insertion order. -/
def lookupGroup (groups : List (List Nat × FileRec)) (base : List Nat) :
    List FileRec :=
  (groups.filter (fun g => decide (g.1 = base))).map (fun g => g.2)

/-- One episode of the canonical metadata file as read by build_match_pool:
the episode number, the per-source title map (association list in dict
order), the merged overview, the per-source overview map, and the air
date. -/
structure MetaEp where
  episode_number : Int
  titles : List (List Nat × List Nat)
  overview : List Nat
  overviews : List (List Nat × List Nat)
  air_date : List Nat
deriving DecidableEq, Repr

/-- One season of the canonical metadata file. -/
structure MetaSeason where
  season_number : Int
  episodes : List MetaEp
deriving DecidableEq, Repr

/-- The candidate titles: non-empty per-source titles without the
boilerplate word "episode" (checked on the lowercased raw title), then
normalized. -/
def candTitles (ep : MetaEp) : List (List Nat) :=
  ((ep.titles.map (fun kv => kv.2)).filter
    (fun t => !t.isEmpty && !containsSub (codes "episode") (pyLowerStr t))).map
    normalize

/-- The candidate overviews: the normalized merged overview followed by all
normalized per-source overviews. -/
def candOverviews (ep : MetaEp) : List (List Nat) :=
  normalize ep.overview :: (ep.overviews.map (fun kv => kv.2)).map normalize

/-- The raw preferred title, ep.get("titles", {}).get("tvmaze", ""). -/
def tvmazeTitle (ep : MetaEp) : List Nat :=
  ((ep.titles.find? (fun kv => decide (kv.1 = codes "tvmaze"))).map
    (fun kv => kv.2)).getD []

/-- The pool element built for one (season, episode) pair. -/
def mkCandidate (sn : Int) (ep : MetaEp) : Candidate :=
  ⟨sn, ep.episode_number, candTitles ep, candOverviews ep, tvmazeTitle ep,
    ep.air_date⟩

/-- One episode of build_match_pool's scan: skip a (season, episode) key
already in the seen set, otherwise record the key and append the
candidate. -/
def bmpEpStep (sn : Int) (acc : List (Int × Int) × List Candidate)
    (ep : MetaEp) : List (Int × Int) × List Candidate :=
  if (sn, ep.episode_number) ∈ acc.1 then acc
  else (acc.1 ++ [(sn, ep.episode_number)], acc.2 ++ [mkCandidate sn ep])

/-- One season of build_match_pool's scan. -/
def bmpSeasonStep (acc : List (Int × Int) × List Candidate)
    (season : MetaSeason) : List (Int × Int) × List Candidate :=
  season.episodes.foldl (bmpEpStep season.season_number) acc

/-- build_match_pool of series_folder_crawler.py: flattens the canonical
record into the candidate pool, skipping any (season, episode) pair it has
already seen (the seen set). -/
def build_match_pool (seasons : List MetaSeason) : List Candidate :=
  (seasons.foldl bmpSeasonStep (([] : List (Int × Int)),
    ([] : List Candidate))).2

/-! build_episode_groups of series_folder_crawler.py: the four-pass run.
The scanner's output dict (keyed by the normalized (subtitle, description)
pair, valued by the xml file list) is modeled as the list of groups in dict
insertion order. The run state carries the mutable match_pool, the flat
season_map (as (season, episode record) pairs in append order, which is the
defaultdict(list) content), and a ghost trace of one event per match
attempt recording the pass number and the bound (season, episode), used to
state pool-depletion. -/

/-- One recording group: the (already normalized) subtitle and description
key of the scanner's dict and the xml files grouped under it. -/
structure GroupIn where
  subtitle : List Nat
  desc : List Nat
  xmlList : List (List Nat)
deriving DecidableEq, Repr

/-- One recorded episode entry of the season_map. -/
structure EpOut where
  episode_number : Int
  titles : List (List Nat)
  filename : List Nat
  files : List FileRec
deriving DecidableEq, Repr

/-- Ghost trace entry: the pass attempted and the bound (season, episode),
none for an unmatched attempt. -/
structure Event where
  passNum : Nat
  bound : Option (Int × Int)
deriving DecidableEq, Repr

/-- The state threaded through the run. -/
structure RunState where
  pool : List Candidate
  smap : List (Int × EpOut)
  events : List Event
deriving DecidableEq, Repr

/-- The file list of one group: for each xml sidecar, the ts records
grouped under its basename, or a zero-size unbroken placeholder named
basename.ts when none exist. -/
def groupFiles (tsGroups : List (List Nat × FileRec)) (g : GroupIn) :
    List FileRec :=
  g.xmlList.foldl (fun acc xml =>
    let basename := removeAll (codes ".xml") xml
    let ts := lookupGroup tsGroups basename
    acc ++ (if ts.isEmpty then [⟨basename ++ codes ".ts", 0, false⟩] else ts))
    []

/-- group["files"][0]["path"] if group["files"] else "No .ts found". -/
def headFilename (files : List FileRec) : List Nat :=
  match files with
  | [] => codes "No .ts found"
  | f :: _ => f.path

/-- Processing of one (subtitle, desc, xml_list) triple within one pass:
a match appends the bound episode under its season (popping the candidate
from the pool in Passes 1 and 2 only); no match appends a synthetic
season-0 entry numbered len(season_map[0]) + 1. A reason string
"No match found after Pass 4" is also written into a local episode_meta
dict in the no-match branch of the source, but that dict never reaches the
output, so it has no counterpart here. -/
def processGroup (sim : List Nat → List Nat → ℚ) (t2 t3 : ℚ) (t4 : Nat)
    (tsGroups : List (List Nat × FileRec)) (passNum : Nat) (st : RunState)
    (g : GroupIn) : RunState :=
  let files := groupFiles tsGroups g
  match match_group_to_provider sim t2 t3 t4 g.subtitle g.desc st.pool passNum with
  | some (i, m) =>
    { pool := if passNum = 1 ∨ passNum = 2 then st.pool.eraseIdx i else st.pool
      smap := st.smap ++ [(m.season, ⟨m.episode, m.titles, headFilename files, files⟩)]
      events := st.events ++ [⟨passNum, some (m.season, m.episode)⟩] }
  | none =>
    { pool := st.pool
      smap := st.smap ++
        [(0, ⟨((st.smap.filter (fun e => decide (e.1 = 0))).length : Int) + 1,
              [g.subtitle], headFilename files, files⟩)]
      events := st.events ++ [⟨passNum, none⟩] }

/-- One step of one pass: process the group and re-append it to
temp_unmatched — unconditionally, exactly as the source does (the append is
outside the match/no-match branches). -/
def runPassStep (sim : List Nat → List Nat → ℚ) (t2 t3 : ℚ) (t4 : Nat)
    (tsGroups : List (List Nat × FileRec)) (passNum : Nat)
    (acc : RunState × List GroupIn) (g : GroupIn) : RunState × List GroupIn :=
  (processGroup sim t2 t3 t4 tsGroups passNum acc.1 g, acc.2 ++ [g])

/-- One pass over the current unmatched_pairs list, returning the new state
and the temp_unmatched list handed to the next pass. -/
def runPass (sim : List Nat → List Nat → ℚ) (t2 t3 : ℚ) (t4 : Nat)
    (tsGroups : List (List Nat × FileRec)) (passNum : Nat) (st : RunState)
    (pairs : List GroupIn) : RunState × List GroupIn :=
  pairs.foldl (runPassStep sim t2 t3 t4 tsGroups passNum) (st, [])

/-- The four passes in order, each consuming the previous pass's
temp_unmatched list. -/
def runAllPasses (sim : List Nat → List Nat → ℚ) (t2 t3 : ℚ) (t4 : Nat)
    (tsGroups : List (List Nat × FileRec)) (pool : List Candidate)
    (pairs : List GroupIn) : RunState :=
  let r1 := runPass sim t2 t3 t4 tsGroups 1 ⟨pool, [], []⟩ pairs
  let r2 := runPass sim t2 t3 t4 tsGroups 2 r1.1 r1.2
  let r3 := runPass sim t2 t3 t4 tsGroups 3 r2.1 r2.2
  let r4 := runPass sim t2 t3 t4 tsGroups 4 r3.1 r3.2
  r4.1

/-- The final nesting: sorted(season_map.items()) with each season's
episodes sorted by episode_number (stable). -/
def assembleResults (smap : List (Int × EpOut)) : List (Int × List EpOut) :=
  (sortByKey (fun sn => sn) ((smap.map (fun e => e.1)).dedup)).map
    (fun sn => (sn, sortByKey (fun e => e.episode_number)
      ((smap.filter (fun e => decide (e.1 = sn))).map (fun e => e.2))))

/-- The union of all groups' xml file lists (all_xml). -/
def allXml (pairs : List GroupIn) : List (List Nat) :=
  (pairs.map (fun g => g.xmlList)).flatten

/-- build_episode_groups of series_folder_crawler.py, as a function of the
scanner's groups, the canonical metadata and the directory's (filename,
size) listing. -/
def build_episode_groups (sim : List Nat → List Nat → ℚ) (t2 t3 : ℚ)
    (t4 : Nat) (pairs : List GroupIn) (meta : List MetaSeason)
    (files : List (List Nat × Nat)) : List (Int × List EpOut) :=
  let pool := build_match_pool meta
  let tsGroups := find_related_ts_files files (allXml pairs)
  assembleResults (runAllPasses sim t2 t3 t4 tsGroups pool pairs).smap

/-- The (season, episode) keys bound by Pass 1 or Pass 2 attempts, in
execution order. -/
def boundKeys12 (evs : List Event) : List (Int × Int) :=
  evs.filterMap (fun e =>
    if e.passNum = 1 ∨ e.passNum = 2 then e.bound else none)

/-- The (season, episode) key of a pool element. -/
def ckey (m : Candidate) : Int × Int := (m.season, m.episode)

/-! Theorems about the matcher's pass bodies and pool handling. -/

lemma findCandidate_get? {p : Candidate → Bool} {pool : List Candidate}
    {i : Nat} {m : Candidate} (h : findCandidate p pool = some (i, m)) :
    pool.get? i = some m := by
  unfold findCandidate at h
  have hm := List.mem_of_find?_eq_some h
  rw [List.mem_enum_iff_getElem?] at hm
  rwa [List.get?_eq_getElem?]

lemma match_group_get? {sim : List Nat → List Nat → ℚ} {t2 t3 : ℚ} {t4 : Nat}
    {sub desc : List Nat} {pool : List Candidate} {passNum : Nat} {i : Nat}
    {m : Candidate}
    (h : match_group_to_provider sim t2 t3 t4 sub desc pool passNum = some (i, m)) :
    pool.get? i = some m := by
  simp only [match_group_to_provider] at h
  split_ifs at h
  all_goals exact findCandidate_get? h

/-- C6. For every recording group whose normalized description has fewer
than 10 words, Pass 3 never produces a match, regardless of the similarity
function, thresholds or pool contents. -/
theorem C6_pass3_short_description_no_match (sim : List Nat → List Nat → ℚ)
    (t2 t3 : ℚ) (t4 : Nat) (subtitle desc : List Nat) (pool : List Candidate)
    (h : (pyWords (normalize desc)).length < 10) :
    match_group_to_provider sim t2 t3 t4 subtitle desc pool 3 = none := by
  have hlt : ¬ (10 ≤ (pyWords (normalize desc)).length) := by omega
  simp [match_group_to_provider, hlt]

/-- A similarity function that rates every pair at 0 (used to make the
fuzzy passes inert in concrete runs). -/
def simZero : List Nat → List Nat → ℚ := fun _ _ => 0

/-- A similarity function that rates every pair at 1. -/
def simOne : List Nat → List Nat → ℚ := fun _ _ => 1

/-- A one-candidate pool element with the single title "pilot". -/
def demoCand : Candidate := ⟨1, 1, [codes "pilot"], [[]], codes "Pilot", []⟩

/-- C6, witness: a 2-word description falls through Pass 3 even with a
candidate present. -/
theorem C6_witness :
    match_group_to_provider simZero (mkRat 4 5) (mkRat 4 5) 12 (codes "pilot")
      (codes "too short") [demoCand] 3 = none :=
  C6_pass3_short_description_no_match simZero (mkRat 4 5) (mkRat 4 5) 12 (codes "pilot")
    (codes "too short") [demoCand] (by decide)

/-- C7. A candidate passes the Pass-4 acceptance test if and only if some
of its overviews has a distinct-shared-word overlap with the group's
description reaching the Pass-4 threshold, the maximum title-similarity
ratio against the group's subtitle is at least 0.60, and at least 0.90
whenever the candidate's season is the specials season 0. -/
theorem C7_pass4_accept_iff (sim : List Nat → List Nat → ℚ) (t4 : Nat)
    (keySub keyDesc : List Nat) (m : Candidate) :
    pass4Accepts sim t4 keySub keyDesc m = true ↔
      ((∃ o ∈ m.overviews, t4 ≤ token_overlap keyDesc o) ∧
       mkRat 6 10 ≤ pyMaxD (m.titles.map (fun t => sim keySub t)) 0 ∧
       (m.season = 0 →
         mkRat 9 10 ≤ pyMaxD (m.titles.map (fun t => sim keySub t)) 0)) := by
  simp only [pass4Accepts, List.any_eq_true, Bool.and_eq_true, Bool.or_eq_true,
    Bool.not_eq_true', decide_eq_true_eq, decide_eq_false_iff_not]
  constructor
  · rintro ⟨o, ho, h1, h2, h3⟩
    refine ⟨⟨o, ho, h1⟩, h2, ?_⟩
    rcases h3 with h | h
    · exact fun hc => absurd hc h
    · exact fun _ => h
  · rintro ⟨⟨o, ho, h1⟩, h2, h3⟩
    refine ⟨o, ho, h1, h2, ?_⟩
    by_cases hs : m.season = 0
    · exact Or.inr (h3 hs)
    · exact Or.inl hs

/-- A season-1 candidate whose only overview is the two-word text
"alpha beta". -/
def demoCand7 : Candidate := ⟨1, 2, [codes "x"], [codes "alpha beta"], [], []⟩

/-- C7, witness at a concrete accepted candidate. -/
theorem C7_witness :
    (∃ o ∈ demoCand7.overviews, 1 ≤ token_overlap (codes "alpha beta") o) ∧
    mkRat 6 10 ≤ pyMaxD (demoCand7.titles.map (fun t => simOne (codes "x") t)) 0 ∧
    (demoCand7.season = 0 →
      mkRat 9 10 ≤ pyMaxD (demoCand7.titles.map (fun t => simOne (codes "x") t)) 0) :=
  (C7_pass4_accept_iff simOne 1 (codes "x") (codes "alpha beta") demoCand7).mp
    (by decide)

/-- C4. Processing one group mutates the pool only by removing the matched
candidate in Passes 1 and 2: in Passes 3 and 4 the pool is left unchanged
and a bound candidate is still a member of it afterwards; in every pass the
new pool is either the old pool or the old pool with the matched index
removed. -/
theorem C4_pool_frame (sim : List Nat → List Nat → ℚ) (t2 t3 : ℚ) (t4 : Nat)
    (tsG : List (List Nat × FileRec)) (passNum : Nat) (st : RunState)
    (g : GroupIn) :
    ((passNum = 3 ∨ passNum = 4) →
      (processGroup sim t2 t3 t4 tsG passNum st g).pool = st.pool ∧
      ∀ i m, match_group_to_provider sim t2 t3 t4 g.subtitle g.desc st.pool
          passNum = some (i, m) →
        m ∈ (processGroup sim t2 t3 t4 tsG passNum st g).pool) ∧
    ((processGroup sim t2 t3 t4 tsG passNum st g).pool = st.pool ∨
      ((passNum = 1 ∨ passNum = 2) ∧ ∃ i m,
        match_group_to_provider sim t2 t3 t4 g.subtitle g.desc st.pool
          passNum = some (i, m) ∧
        (processGroup sim t2 t3 t4 tsG passNum st g).pool
          = st.pool.eraseIdx i)) := by
  cases hres : match_group_to_provider sim t2 t3 t4 g.subtitle g.desc st.pool
      passNum with
  | none =>
    have hp : (processGroup sim t2 t3 t4 tsG passNum st g).pool = st.pool := by
      simp [processGroup, hres]
    refine ⟨fun _ => ⟨hp, ?_⟩, Or.inl hp⟩
    intro i m hm
    simp at hm
  | some im =>
    obtain ⟨i, m⟩ := im
    by_cases h12 : passNum = 1 ∨ passNum = 2
    · have hp : (processGroup sim t2 t3 t4 tsG passNum st g).pool
          = st.pool.eraseIdx i := by
        simp [processGroup, hres, h12]
      refine ⟨?_, Or.inr ⟨h12, i, m, rfl, hp⟩⟩
      intro h34
      exfalso
      rcases h12 with rfl | rfl <;> rcases h34 with h | h <;>
        exact absurd h (by decide)
    · have hp : (processGroup sim t2 t3 t4 tsG passNum st g).pool = st.pool := by
        simp [processGroup, hres, h12]
      refine ⟨?_, Or.inl hp⟩
      intro _
      refine ⟨hp, ?_⟩
      intro i2 m2 hm
      have hm2 : m = m2 := congrArg Prod.snd (Option.some.inj hm)
      rw [hp, ← hm2]
      exact List.get?_mem (match_group_get? hres)

/-- A one-candidate run state for the frame witness. -/
def demoState : RunState := ⟨[demoCand], [], []⟩

/-- A recording group with subtitle "pilot" and one sidecar. -/
def demoGroup : GroupIn := ⟨codes "pilot", [], [codes "a.xml"]⟩

/-- C4, witness: a Pass-3 step leaves the pool unchanged. -/
theorem C4_witness :
    (processGroup simZero (mkRat 4 5) (mkRat 4 5) 12 [] 3 demoState demoGroup).pool
      = demoState.pool :=
  ((C4_pool_frame simZero (mkRat 4 5) (mkRat 4 5) 12 [] 3 demoState demoGroup).1
    (Or.inl rfl)).1

/-! Concrete runs exhibiting the divergences of build_episode_groups and
find_related_ts_files from the specified behavior. -/

/-- Canonical metadata with the single episode S1E1 titled "Pilot". -/
def meta1 : List MetaSeason :=
  [⟨1, [⟨1, [(codes "tvmaze", codes "Pilot")], [], [], []⟩]⟩]

/-- A single recording group whose subtitle matches that title exactly. -/
def pairs1 : List GroupIn := [⟨codes "pilot", [], [codes "a.xml"]⟩]

/-- C1. A group bound in Pass 1 is nevertheless re-attempted by the code in
Passes 2, 3 and 4 (the pair is re-appended to temp_unmatched
unconditionally), so the lone group of this run is recorded four times:
once as its Pass-1 binding S1E1 and three more times as synthetic season-0
unmatched entries — the claimed once-only binding with exclusion from later
passes does not hold on the code. -/
theorem C1_matched_group_reattempted :
    (build_episode_groups simZero (mkRat 4 5) (mkRat 4 5) 12 pairs1 meta1
      []).map (fun s => (s.1, s.2.length)) = [(0, 3), (1, 1)] := by
  decide

/-- Canonical metadata with the single episode S1E1 titled "Other". -/
def meta5 : List MetaSeason :=
  [⟨1, [⟨1, [(codes "tvmaze", codes "Other")], [], [], []⟩]⟩]

/-- A single recording group that matches nothing in any pass. -/
def pairs5 : List GroupIn := [⟨codes "nomatch", [], [codes "b.xml"]⟩]

/-- C5. A group that matches nothing is recorded as a synthetic season-0
entry in every one of the four passes — episode numbers 1, 2, 3 and 4 —
not exactly once after Pass 4 as claimed (and the reason string the code
writes, "No match found after Pass 4", is attached to a local dict that
never reaches the output). -/
theorem C5_unmatched_recorded_every_pass :
    (build_episode_groups simZero (mkRat 4 5) (mkRat 4 5) 12 pairs5 meta5
      []).map (fun s => (s.1, s.2.map (fun e => e.episode_number)))
      = [(0, [1, 2, 3, 4])] := by
  decide

/-- C9. A media file named by a sidecar basename plus the trailing "-0"
marker is dropped: with sidecar show.xml present, show-0.ts joins no group,
because the suffix-strip regex looks ahead for the ".ts" that file[:-3]
already removed and therefore never strips, and the unstripped base
"show-0" matches no sidecar name. -/
theorem C9_suffix_file_dropped :
    find_related_ts_files [(codes "show-0.ts", 5)] [codes "show.xml"] = [] := by
  decide

/-- C10. In the scanner's file association output, a record's broken flag
is true exactly when its filename contains the substring "-0" anywhere,
not only as a trailing duplicate-copy suffix. -/
theorem C10_broken_flag_iff (files : List (List Nat × Nat))
    (xmls : List (List Nat)) (entry : List Nat × FileRec)
    (h : entry ∈ find_related_ts_files files xmls) :
    entry.2.broken = containsSub (codes "-0") entry.2.path := by
  unfold find_related_ts_files at h
  refine foldl_inv
    (P := fun acc => ∀ e ∈ acc, e.2.broken = containsSub (codes "-0") e.2.path)
    ?_ files [] (by simp) entry h
  intro acc f hacc e he
  unfold ftfStep at he
  split_ifs at he
  · rcases List.mem_append.mp he with h2 | h2
    · exact hacc e h2
    · rw [List.mem_singleton.mp h2]
  · exact hacc e he
  · exact hacc e he

/-- C10, witness: the file ep2020-01.ts, whose "-0" occurs inside a date
rather than as a duplicate-copy suffix, is still flagged broken. -/
theorem C10_witness :
    ((codes "ep2020-01", FileRec.mk (codes "ep2020-01.ts") 7 true) :
        List Nat × FileRec).2.broken
      = containsSub (codes "-0")
          ((codes "ep2020-01", FileRec.mk (codes "ep2020-01.ts") 7 true) :
            List Nat × FileRec).2.path :=
  C10_broken_flag_iff [(codes "ep2020-01.ts", 7)] [codes "ep2020-01.xml"]
    (codes "ep2020-01", FileRec.mk (codes "ep2020-01.ts") 7 true) (by decide)

/-! Pool depletion (C3): during a run the keys bound by Pass 1/2 attempts
never repeat, because each such binding removes its candidate from a pool
whose keys are unique and only ever shrink. -/

/-- The invariant threaded through a run: the pool's (season, episode)
keys are distinct, the keys bound so far by Pass 1/2 are distinct, and no
key bound by Pass 1/2 is still in the pool. -/
def matcherInv (st : RunState) : Prop :=
  (st.pool.map ckey).Nodup ∧ (boundKeys12 st.events).Nodup ∧
  ∀ k ∈ boundKeys12 st.events, k ∉ st.pool.map ckey

/-- The invariant used for the seen-set construction of build_match_pool. -/
def bmpInv (acc : List (Int × Int) × List Candidate) : Prop :=
  (acc.2.map ckey).Nodup ∧ ∀ k ∈ acc.2.map ckey, k ∈ acc.1

lemma ckey_mkCandidate (sn : Int) (ep : MetaEp) :
    ckey (mkCandidate sn ep) = (sn, ep.episode_number) := rfl

lemma bmpEpStep_inv (sn : Int) (acc : List (Int × Int) × List Candidate)
    (ep : MetaEp) (h : bmpInv acc) : bmpInv (bmpEpStep sn acc ep) := by
  obtain ⟨hnd, hsub⟩ := h
  unfold bmpEpStep
  split_ifs with hmem
  · exact ⟨hnd, hsub⟩
  · constructor
    · rw [List.map_append]
      refine List.Nodup.append hnd (by simp) ?_
      intro a ha hb
      simp only [List.map_cons, List.map_nil, List.mem_singleton,
        ckey_mkCandidate] at hb
      exact hmem (hb ▸ hsub a ha)
    · intro k hk
      rw [List.map_append] at hk
      rcases List.mem_append.mp hk with h2 | h2
      · exact List.mem_append_left _ (hsub k h2)
      · simp only [List.map_cons, List.map_nil, List.mem_singleton,
          ckey_mkCandidate] at h2
        exact List.mem_append_right _ (by simp [h2])

lemma bmpSeasonStep_inv (acc : List (Int × Int) × List Candidate)
    (season : MetaSeason) (h : bmpInv acc) : bmpInv (bmpSeasonStep acc season) :=
  foldl_inv (fun b a hb => bmpEpStep_inv season.season_number b a hb)
    season.episodes acc h

lemma build_match_pool_nodup (seasons : List MetaSeason) :
    ((build_match_pool seasons).map ckey).Nodup := by
  unfold build_match_pool
  exact (foldl_inv (fun b a hb => bmpSeasonStep_inv b a hb) seasons
    ([], []) ⟨by simp, by simp⟩).1

lemma boundKeys12_append (evs : List Event) (e : Event) :
    boundKeys12 (evs ++ [e]) = boundKeys12 evs ++
      (if e.passNum = 1 ∨ e.passNum = 2 then e.bound.toList else []) := by
  unfold boundKeys12
  rw [List.filterMap_append]
  congr 1
  split_ifs with hc <;> cases hb : e.bound <;>
    simp [List.filterMap, hc, hb]

lemma ckey_not_mem_eraseIdx {pool : List Candidate} {i : Nat} {m : Candidate}
    (hnd : (pool.map ckey).Nodup) (hget : pool.get? i = some m) :
    ckey m ∉ (pool.eraseIdx i).map ckey := by
  have hi : i < pool.length := by
    by_contra hcon
    rw [List.get?_eq_none.mpr (by omega)] at hget
    exact Option.noConfusion hget
  have hdrop : pool.drop i = m :: pool.drop (i + 1) := by
    have hg := List.get?_eq_get hi
    rw [hg] at hget
    have hm := Option.some.inj hget
    rw [List.drop_eq_getElem_cons hi]
    congr 1
  have hsplit : pool = pool.take i ++ m :: pool.drop (i + 1) := by
    conv_lhs => rw [← List.take_append_drop i pool]
    rw [hdrop]
  have hnd2 : ((pool.take i ++ m :: pool.drop (i + 1)).map ckey).Nodup := by
    rw [← hsplit]
    exact hnd
  rw [List.map_append, List.map_cons, List.nodup_append] at hnd2
  obtain ⟨hnA, hnC, hdisj⟩ := hnd2
  rw [List.eraseIdx_eq_take_drop_succ, List.map_append]
  intro hmem
  rcases List.mem_append.mp hmem with h2 | h2
  · exact hdisj h2 (List.mem_cons_self _ _)
  · rw [List.nodup_cons] at hnC
    exact hnC.1 h2

lemma processGroup_inv (sim : List Nat → List Nat → ℚ) (t2 t3 : ℚ) (t4 : Nat)
    (tsG : List (List Nat × FileRec)) (passNum : Nat) (st : RunState)
    (g : GroupIn) (h : matcherInv st) :
    matcherInv (processGroup sim t2 t3 t4 tsG passNum st g) := by
  obtain ⟨hpool, hbk, hdis⟩ := h
  cases hres : match_group_to_provider sim t2 t3 t4 g.subtitle g.desc st.pool
      passNum with
  | none =>
    have hpool2 : (processGroup sim t2 t3 t4 tsG passNum st g).pool = st.pool := by
      simp [processGroup, hres]
    have hev : (processGroup sim t2 t3 t4 tsG passNum st g).events
        = st.events ++ [⟨passNum, none⟩] := by
      simp [processGroup, hres]
    have hb2 : boundKeys12 ((processGroup sim t2 t3 t4 tsG passNum st g).events)
        = boundKeys12 st.events := by
      rw [hev, boundKeys12_append]
      split_ifs <;> simp
    refine ⟨?_, ?_, ?_⟩
    · rw [hpool2]; exact hpool
    · rw [hb2]; exact hbk
    · intro k hk
      rw [hb2] at hk
      rw [hpool2]
      exact hdis k hk
  | some im =>
    obtain ⟨i, m⟩ := im
    have hev : (processGroup sim t2 t3 t4 tsG passNum st g).events
        = st.events ++ [⟨passNum, some (m.season, m.episode)⟩] := by
      simp [processGroup, hres]
    by_cases h12 : passNum = 1 ∨ passNum = 2
    · have hget := match_group_get? hres
      have hpool2 : (processGroup sim t2 t3 t4 tsG passNum st g).pool
          = st.pool.eraseIdx i := by
        simp [processGroup, hres, h12]
      have hb2 : boundKeys12 ((processGroup sim t2 t3 t4 tsG passNum st g).events)
          = boundKeys12 st.events ++ [ckey m] := by
        rw [hev, boundKeys12_append, if_pos h12]
        rfl
      have hmemkey : ckey m ∈ st.pool.map ckey :=
        List.mem_map_of_mem ckey (List.get?_mem hget)
      have hsub : ((st.pool.eraseIdx i).map ckey).Sublist (st.pool.map ckey) :=
        List.Sublist.map ckey (List.eraseIdx_sublist st.pool i)
      refine ⟨?_, ?_, ?_⟩
      · rw [hpool2]
        exact List.Nodup.sublist hsub hpool
      · rw [hb2]
        refine List.Nodup.append hbk (by simp) ?_
        intro a ha hb
        rw [List.mem_singleton.mp hb] at ha
        exact hdis (ckey m) ha hmemkey
      · intro k hk
        rw [hb2] at hk
        rw [hpool2]
        rcases List.mem_append.mp hk with h2 | h2
        · intro hin
          exact hdis k h2 (hsub.subset hin)
        · rw [List.mem_singleton.mp h2]
          exact ckey_not_mem_eraseIdx hpool hget
    · have hpool2 : (processGroup sim t2 t3 t4 tsG passNum st g).pool
          = st.pool := by
        simp [processGroup, hres, h12]
      have hb2 : boundKeys12 ((processGroup sim t2 t3 t4 tsG passNum st g).events)
          = boundKeys12 st.events := by
        rw [hev, boundKeys12_append, if_neg h12]
        simp
      refine ⟨?_, ?_, ?_⟩
      · rw [hpool2]; exact hpool
      · rw [hb2]; exact hbk
      · intro k hk
        rw [hb2] at hk
        rw [hpool2]
        exact hdis k hk

lemma runPass_inv (sim : List Nat → List Nat → ℚ) (t2 t3 : ℚ) (t4 : Nat)
    (tsG : List (List Nat × FileRec)) (passNum : Nat) (st : RunState)
    (pairs : List GroupIn) (h : matcherInv st) :
    matcherInv (runPass sim t2 t3 t4 tsG passNum st pairs).1 := by
  unfold runPass
  refine foldl_inv (P := fun acc : RunState × List GroupIn => matcherInv acc.1)
    ?_ pairs (st, []) h
  intro b a hb
  exact processGroup_inv sim t2 t3 t4 tsG passNum b.1 a hb

/-- C3. Pool depletion: over a whole run (any similarity function,
thresholds, file association and recording groups, with the pool built by
build_match_pool), the (season, episode) keys bound by Pass 1 and Pass 2
attempts are pairwise distinct — once a candidate is consumed by Pass 1 or
Pass 2, no later group binds that same (season, episode) via Pass 1 or
Pass 2. -/
theorem C3_pool_depletion (sim : List Nat → List Nat → ℚ) (t2 t3 : ℚ)
    (t4 : Nat) (tsG : List (List Nat × FileRec)) (meta : List MetaSeason)
    (pairs : List GroupIn) :
    (boundKeys12 (runAllPasses sim t2 t3 t4 tsG (build_match_pool meta)
      pairs).events).Nodup := by
  have h0 : matcherInv ⟨build_match_pool meta, [], []⟩ :=
    ⟨build_match_pool_nodup meta, by simp [boundKeys12], by simp [boundKeys12]⟩
  simp only [runAllPasses]
  exact (runPass_inv sim t2 t3 t4 tsG 4 _ _
    (runPass_inv sim t2 t3 t4 tsG 3 _ _
      (runPass_inv sim t2 t3 t4 tsG 2 _ _
        (runPass_inv sim t2 t3 t4 tsG 1 _ _ h0)))).2.1

end MediaOrganizer
